import Mathlib

/-!
Shallow embedding of `petl/transform/regex.py` and `petl/errors.py`
(capture, split, search/searchcomplement stages and their iterators),
together with proofs about the embedded definitions.

Python values appearing in tables are modelled by `Value` (strings and
integers suffice for the code paths under study); Python sequences (lists
vs tuples) by `PySeq`, so that the `tuple(...)` wrapping performed by the
iterators is observable.  A traversal of a generator is modelled as the
list of items it yields together with an optional terminal error
(`Trace`): a Python generator that raises after yielding some items
corresponds to a `Trace` with a non-empty `yielded` list and `err = some e`.

The external regex engine (`re`) is a parameter: compiled-pattern
behaviour is passed in as a function (`prog` for `search`-with-groups,
`sp` for `split`, `m` for boolean search matching).  Concrete engines for
the patterns used in the specification's examples are defined below and
are faithful to Python `re` semantics on the inputs involved.
-/

namespace Petl

/-- Python scalar values occurring in the tables under study. -/
inductive Value where
  | str (s : String)
  | int (n : Int)
deriving DecidableEq, Repr

/-- Python `str(v)`: identity on strings, decimal rendering of ints. -/
def Value.pystr : Value → String
  | .str s => s
  | .int n => toString n

/-- Python sequence objects: lists and tuples, distinguished so that the
`tuple(...)` wrapping in the iterators is visible in the model. -/
inductive PySeq where
  | list (elems : List Value)
  | tuple (elems : List Value)
deriving DecidableEq, Repr

/-- The underlying element list of a Python sequence. -/
def PySeq.elems : PySeq → List Value
  | .list xs => xs
  | .tuple xs => xs

/-- Whether a Python sequence object is a tuple. -/
def PySeq.isTuple : PySeq → Bool
  | .list _ => false
  | .tuple _ => true

/-- Errors raised by the embedded code paths, mirroring
`petl/errors.py` and the exceptions raised in `regex.py`. -/
inductive PErr where
  /-- `next(it)` on an exhausted source inside the generator. -/
  | stopIteration
  /-- `Exception('field invalid: must be either field name or index')`
  raised by `itercapture` / `itersplit` field resolution. -/
  | fieldInvalid
  /-- `ValueError` from `list.remove(x)` when `x` is not in the list. -/
  | valueNotInList (v : Value)
  /-- `ValueError` from `fields.index(field)` in `itersearch` when the
  field name is absent. -/
  | nameNotFound (s : String)
  /-- `petl.transform.basics.TransformError` raised by `itercapture` on a
  non-matching value with no fill configured; carries the offending value
  and the pattern text. -/
  | transformError (value : Value) (pattern : String)
  /-- Python `IndexError` from sequence subscripting. -/
  | indexError
  /-- Python `TypeError` (e.g. iterating a non-iterable). -/
  | typeError
  /-- `petl.errors.FieldSelectionError`, carrying the offending selector. -/
  | fieldSelectionError (v : Value)
deriving DecidableEq, Repr

/-- One complete traversal of a generator: the items yielded, followed by
an optional terminal error. -/
structure Trace where
  yielded : List PySeq
  err : Option PErr
deriving DecidableEq, Repr

/-- Python sequence subscripting `l[i]` with negative-index semantics:
`l[i]` is `l[len(l)+i]` for negative `i`; out of range gives `none`
(Python raises `IndexError`). -/
def pyGetItem (l : List Value) (i : Int) : Option Value :=
  let j : Int := if i < 0 then (l.length : Int) + i else i
  if 0 ≤ j then l[j.toNat]? else none

/-- Python `list.remove(x)`: drop the first element equal to `x`;
`none` when `x` is absent (Python raises `ValueError`). -/
def pyRemove (l : List Value) (v : Value) : Option (List Value) :=
  match l with
  | [] => none
  | x :: xs => if x = v then some xs else (pyRemove xs v).map (x :: ·)

/-- Python `l.index(v)` restricted to the case `v ∈ l`: index of the
first occurrence. -/
def pyIndexOf (l : List Value) (v : Value) : Nat :=
  l.findIdx (fun x => x == v)

/-- The list comprehension `[v for i, v in enumerate(row) if i != field_index]`
from `itercapture` / `itersplit`: all elements except the one at position
`i` (no element is dropped when `i` is negative or out of range, since
`enumerate` indices are non-negative). -/
def dropIdx (l : List Value) (i : Int) : List Value :=
  (l.enum.filter (fun p => ((p.1 : Int) != i))).map Prod.snd

/-- Field resolution shared by `itercapture` (lines 105-110) and
`itersplit` (lines 200-206): a selector equal to some header element
resolves to its first index; otherwise an integer selector is accepted
iff `field < len(flds)` (note: no lower bound, so negative integers are
accepted); anything else raises the generic
`Exception('field invalid: ...')`. -/
def resolveField (flds : List Value) (field : Value) : Except PErr Int :=
  if field ∈ flds then
    Except.ok (pyIndexOf flds field)
  else
    match field with
    | .int n => if n < (flds.length : Int) then Except.ok n else Except.error .fieldInvalid
    | _ => Except.error .fieldInvalid

/-- Output-row prefix built by `itercapture` / `itersplit` for one source
row: `list(row)` when the original field is retained, else the row with
the element at the resolved index dropped. -/
def captureOutRow (i : Int) (include_original : Bool) (row : PySeq) : List Value :=
  if include_original then row.elems else dropIdx row.elems i

/-- Output header construction shared by `itercapture` (lines 113-117)
and `itersplit` (lines 209-213): copy the source header, `remove(field)`
unless the original is retained, then extend with `newfields` when the
latter is non-empty (truthy). -/
def captureHeaderE (flds : List Value) (field : Value) (newfields : List Value)
    (include_original : Bool) : Except PErr (List Value) :=
  let base : Except PErr (List Value) :=
    if include_original then Except.ok flds
    else
      match pyRemove flds field with
      | some l => Except.ok l
      | none => Except.error (.valueNotInList field)
  base.map (fun l => if newfields.isEmpty then l else l ++ newfields)

/-- The row loop of `itercapture` (lines 121-135): for each row, read the
target value, build the output prefix, consult the compiled pattern
(`prog`, returning the capture groups of the first match when any);
on a match extend with the groups, otherwise extend with the fill when
configured or raise a transform error naming the value and pattern. -/
def captureRows (prog : Value → Option (List Value)) (pattern : String)
    (i : Int) (include_original : Bool) (fill : Option (List Value)) :
    List PySeq → List PySeq × Option PErr
  | [] => ([], none)
  | row :: rest =>
    match pyGetItem row.elems i with
    | none => ([], some .indexError)
    | some value =>
      let out := captureOutRow i include_original row
      match prog value with
      | some groups =>
        let r := captureRows prog pattern i include_original fill rest
        (.tuple (out ++ groups) :: r.1, r.2)
      | none =>
        match fill with
        | some f =>
          let r := captureRows prog pattern i include_original fill rest
          (.tuple (out ++ f) :: r.1, r.2)
        | none => ([], some (.transformError value pattern))

/-- The generator `itercapture` (lines 99-135): consume the header,
resolve the field, yield the output header, then stream transformed
rows.  `prog` is the behaviour of `re.compile(pattern, flags).search`,
returning the groups of the first match. -/
def itercapture (prog : Value → Option (List Value)) (pattern : String)
    (source : List PySeq) (field : Value) (newfields : List Value)
    (include_original : Bool) (fill : Option (List Value)) : Trace :=
  match source with
  | [] => ⟨[], some .stopIteration⟩
  | flds :: rows =>
    match resolveField flds.elems field with
    | .error e => ⟨[], some e⟩
    | .ok fieldIndex =>
      match captureHeaderE flds.elems field newfields include_original with
      | .error e => ⟨[], some e⟩
      | .ok outFlds =>
        let r := captureRows prog pattern fieldIndex include_original fill rows
        ⟨.tuple outFlds :: r.1, r.2⟩

/-- The row loop of `itersplit` (lines 217-224): for each row, read the
target value, build the output prefix, and extend it with
`prog.split(value, maxsplit)` (the behaviour `sp` of the compiled
pattern's split, with the maxsplit bound already applied).  There is no
failure branch besides sequence subscripting. -/
def splitRows (sp : Value → List Value) (i : Int) (include_original : Bool) :
    List PySeq → List PySeq × Option PErr
  | [] => ([], none)
  | row :: rest =>
    match pyGetItem row.elems i with
    | none => ([], some .indexError)
    | some value =>
      let out := captureOutRow i include_original row
      let r := splitRows sp i include_original rest
      (.tuple (out ++ sp value) :: r.1, r.2)

/-- The body of `itersplit` after field resolution (lines 209-224):
build and yield the output header, then stream split rows.  `field` here
is the (possibly reassigned) selector used by `remove`. -/
def itersplitBody (sp : Value → List Value) (flds : PySeq)
    (rows : List PySeq) (newfields : List Value) (include_original : Bool)
    (field : Value) (fieldIndex : Int) : Trace :=
  match captureHeaderE flds.elems field newfields include_original with
  | .error e => ⟨[], some e⟩
  | .ok outFlds =>
    let r := splitRows sp fieldIndex include_original rows
    ⟨.tuple outFlds :: r.1, r.2⟩

/-- The generator `itersplit` (lines 193-224).  Field resolution matches
`itercapture` except that on the integer branch the code reassigns
`field = flds[field_index]` (line 204) before the header is built, so the
subsequent `remove(field)` targets the resolved header element. -/
def itersplit (sp : Value → List Value) (source : List PySeq) (field : Value)
    (newfields : List Value) (include_original : Bool) : Trace :=
  match source with
  | [] => ⟨[], some .stopIteration⟩
  | flds :: rows =>
    if field ∈ flds.elems then
      itersplitBody sp flds rows newfields include_original field
        (pyIndexOf flds.elems field)
    else
      match field with
      | .int n =>
        if n < (flds.elems.length : Int) then
          match pyGetItem flds.elems n with
          | some f2 => itersplitBody sp flds rows newfields include_original f2 n
          | none => ⟨[], some .indexError⟩
        else ⟨[], some .fieldInvalid⟩
      | _ => ⟨[], some .fieldInvalid⟩

/-- The field-scope argument of `search`: absent (`None`), a single
string field name, or a collection of selectors, matching the
`isinstance` dispatch in `itersearch` (lines 316-327). -/
inductive FieldScope where
  | whole
  | single (s : String)
  | subset (sel : List Value)
deriving DecidableEq, Repr

/-- Modelled from the spec: `asindices` (from `petl.util.base`, not under
`src/`) maps an ordered collection of selectors against a header to a
list of positional indices — a name resolves to its first exact match, an
integer is accepted iff `0 <= index < len(header)`, and anything else
fails with a field-selection error carrying the offending selector. -/
def asindices (fields : List String) (sel : List Value) : Except PErr (List Nat) :=
  sel.mapM (fun v =>
    match v with
    | .str s =>
      match fields.findIdx? (fun g => g == s) with
      | some i => Except.ok i
      | none => Except.error (.fieldSelectionError v)
    | .int n =>
      if 0 ≤ n ∧ n < (fields.length : Int) then Except.ok n.toNat
      else Except.error (.fieldSelectionError v))

/-- The tuple built by `operator.itemgetter(i, j, ...)` applied to a row:
the values at the given indices in order, `none` when some index is out
of range (Python raises `IndexError`). -/
def getIndexed (r : List Value) : List Nat → Option (List Value)
  | [] => some []
  | k :: ks =>
    match r[k]?, getIndexed r ks with
    | some v, some vs => some (v :: vs)
    | _, _ => none

/-- Iterating `any(prog.search(str(v)) for v in x)` where `x` is a single
Python object (the `operator.itemgetter` result for a singleton index
list): iterating a string yields its one-character substrings, iterating
an int raises `TypeError`. -/
def pyIterAny (m : String → Bool) (x : Value) : Except PErr Bool :=
  match x with
  | .str s => Except.ok (s.toList.any (fun c => m (String.mk [c])))
  | .int _ => Except.error .typeError

/-- Test construction in `itersearch` (lines 316-327).  `m` is the
behaviour of `re.compile(pattern, flags).search` as a truth value.  The
whole-row test tries every value; the single-field test uses
`fields.index(field)` (raising `ValueError` when absent) and subscripts
the row; the subset test resolves indices via `asindices` and fetches
values with `operator.itemgetter(*indices)` — which, for a singleton
index list, returns the bare value rather than a 1-tuple, so the
generator then iterates over that value itself. -/
def mkTest (m : String → Bool) (fields : List String) :
    FieldScope → Except PErr (PySeq → Except PErr Bool)
  | .whole => Except.ok (fun r => Except.ok (r.elems.any (fun v => m v.pystr)))
  | .single s =>
    match fields.findIdx? (fun g => g == s) with
    | some i =>
      Except.ok (fun r =>
        match r.elems[i]? with
        | some v => Except.ok (m v.pystr)
        | none => Except.error .indexError)
    | none => Except.error (.nameNotFound s)
  | .subset sel =>
    match asindices fields sel with
    | .error e => Except.error e
    | .ok [] => Except.error .typeError
    | .ok [i] =>
      Except.ok (fun r =>
        match r.elems[i]? with
        | some v => pyIterAny m v
        | none => Except.error .indexError)
    | .ok is =>
      Except.ok (fun r =>
        match getIndexed r.elems is with
        | some vals => Except.ok (vals.any (fun v => m v.pystr))
        | none => Except.error .indexError)

/-- The row loops of `itersearch` (lines 330-338): yield `tuple(row)`
exactly when `test(row)` differs from the complement flag. -/
def searchLoop (test : PySeq → Except PErr Bool) (complement : Bool) :
    List PySeq → List PySeq × Option PErr
  | [] => ([], none)
  | row :: rest =>
    match test row with
    | .error e => ([], some e)
    | .ok b =>
      if b != complement then
        let r := searchLoop test complement rest
        (.tuple row.elems :: r.1, r.2)
      else searchLoop test complement rest

/-- The generator `itersearch` (lines 310-338): str-coerce the header
field names, yield the coerced header as a tuple, build the test, then
filter rows.  The header is yielded before the test is built, so a test
construction error surfaces after the header item. -/
def itersearch (m : String → Bool) (table : List PySeq) (field : FieldScope)
    (complement : Bool) : Trace :=
  match table with
  | [] => ⟨[], some .stopIteration⟩
  | hdr :: rows =>
    let fields : List String := hdr.elems.map Value.pystr
    let hdrItem : PySeq := .tuple (fields.map Value.str)
    match mkTest m fields field with
    | .error e => ⟨[hdrItem], some e⟩
    | .ok test =>
      let r := searchLoop test complement rows
      ⟨hdrItem :: r.1, r.2⟩

/-- The `CaptureView` class (lines 81-96): an immutable bundle of source
reference and configuration. -/
structure CaptureView where
  source : List PySeq
  field : Value
  pattern : String
  newfields : List Value
  include_original : Bool
  flags : Nat
  fill : Option (List Value)
deriving DecidableEq, Repr

/-- `CaptureView.__iter__` (lines 93-96): every traversal re-runs
`itercapture` on the stored source and configuration.  `compile` is the
behaviour of `re.compile` (pattern, flags ↦ search function). -/
def CaptureView.iter (compile : String → Nat → (Value → Option (List Value)))
    (v : CaptureView) : Trace :=
  itercapture (compile v.pattern v.flags) v.pattern v.source v.field
    v.newfields v.include_original v.fill

/-- The `capture` constructor (lines 71-75). -/
def capture (table : List PySeq) (field : Value) (pattern : String)
    (newfields : List Value) (include_original : Bool) (flags : Nat)
    (fill : Option (List Value)) : CaptureView :=
  ⟨table, field, pattern, newfields, include_original, flags, fill⟩

/-- The `SplitView` class (lines 176-190). -/
structure SplitView where
  source : List PySeq
  field : Value
  pattern : String
  newfields : List Value
  include_original : Bool
  maxsplit : Int
  flags : Nat
deriving DecidableEq, Repr

/-- `SplitView.__iter__` (lines 188-190).  `compile` gives the compiled
pattern's split behaviour (value, maxsplit ↦ pieces). -/
def SplitView.iter (compile : String → Nat → (Value → Int → List Value))
    (v : SplitView) : Trace :=
  itersplit (fun x => compile v.pattern v.flags x v.maxsplit) v.source v.field
    v.newfields v.include_original

/-- The `split` constructor (lines 169-170). -/
def split (table : List PySeq) (field : Value) (pattern : String)
    (newfields : List Value) (include_original : Bool) (maxsplit : Int)
    (flags : Nat) : SplitView :=
  ⟨table, field, pattern, newfields, include_original, maxsplit, flags⟩

/-- The `SearchView` class (lines 296-307). -/
structure SearchView where
  table : List PySeq
  pattern : String
  field : FieldScope
  flags : Nat
  complement : Bool
deriving DecidableEq, Repr

/-- `SearchView.__iter__` (lines 305-307). -/
def SearchView.iter (compile : String → Nat → (String → Bool))
    (v : SearchView) : Trace :=
  itersearch (compile v.pattern v.flags) v.table v.field v.complement

/-- The `search` constructor (lines 242-290) after its argument-count
dispatch: one positional argument means whole-row scope. -/
def search (table : List PySeq) (pattern : String) (field : FieldScope)
    (flags : Nat) (complement : Bool) : SearchView :=
  ⟨table, pattern, field, flags, complement⟩

/-- `searchcomplement` (lines 341-377): exactly `search` with the
complement flag forced true. -/
def searchcomplement (table : List PySeq) (pattern : String)
    (field : FieldScope) (flags : Nat) : SearchView :=
  search table pattern field flags true

/-! Concrete regex-engine behaviours for the patterns of the
specification's examples, faithful to Python `re` semantics on the
(string) inputs involved. -/

/-- ASCII `\w` word character (letter, digit or underscore); the example
inputs are ASCII. -/
def isWordChar (c : Char) : Bool := c.isAlphanum || c == '_'

/-- Leftmost-match scan for the pattern `(\w)(\d+)` over a character
list: at the first position holding a word character immediately
followed by at least one digit, the groups are that character and the
maximal digit run after it. -/
def wdSearchChars : List Char → Option (List Value)
  | [] => none
  | c :: rest =>
    let ds := rest.takeWhile Char.isDigit
    if isWordChar c && !ds.isEmpty then
      some [.str (String.mk [c]), .str (String.mk ds)]
    else wdSearchChars rest

/-- Behaviour of `re.compile('(\\w)(\\d+)').search` (groups of the first
match) on the string values of the examples. -/
def wprog : Value → Option (List Value)
  | .str s => wdSearchChars s.toList
  | .int _ => none

/-- Worker for single-character `re.split`: cut at each occurrence of
`c` while the remaining split budget (`none` = unbounded) is not
exhausted. -/
def splitCharAux (c : Char) (budget : Option Nat) (acc : List Char) :
    List Char → List (List Char)
  | [] => [acc.reverse]
  | x :: xs =>
    if x == c && budget != some 0 then
      acc.reverse :: splitCharAux c (budget.map (· - 1)) [] xs
    else splitCharAux c budget (x :: acc) xs

/-- Behaviour of `re.compile('d').split(value, maxsplit)` on string
values: `maxsplit = 0` means unbounded, a negative `maxsplit` performs no
split (as in CPython's `sre`), otherwise at most `maxsplit` cuts. -/
def dSplit (maxsplit : Int) : Value → List Value
  | .str s =>
    if maxsplit < 0 then [.str s]
    else
      let budget : Option Nat := if maxsplit = 0 then none else some maxsplit.toNat
      (splitCharAux 'd' budget [] s.toList).map (fun cs => .str (String.mk cs))
  | .int n => [.int n]

/-- Scan for the pattern `.g.`: true iff some character `'g'` has a
character on both sides (no newlines occur in the example inputs). -/
def dotgdotChars : List Char → Bool
  | [] => false
  | _ :: rest =>
    match rest with
    | b :: _ :: _ => b == 'g' || dotgdotChars rest
    | _ => false

/-- Behaviour of `re.compile('.g.').search` as a truth value. -/
def dotgdot (s : String) : Bool := dotgdotChars s.toList

/-- Literal pattern match at the head of a character list. -/
def litMatchHere : List Char → List Char → Bool
  | [], _ => true
  | _ :: _, [] => false
  | p :: ps, x :: xs => p == x && litMatchHere ps xs

/-- Literal pattern search over a character list (leftmost occurrence). -/
def litSearchChars (pat : List Char) : List Char → Bool
  | [] => litMatchHere pat []
  | x :: xs => litMatchHere pat (x :: xs) || litSearchChars pat xs

/-- Behaviour of `re.compile(pat).search` as a truth value, for a literal
pattern `pat` (no metacharacters). -/
def litSearch (pat : String) (s : String) : Bool :=
  litSearchChars pat.toList s.toList

/-! Helper definitions and characterization lemmas. -/

/-- The transformed image of one source row in the capture loop, when the
target value is present and matches: the output prefix extended with the
capture groups. -/
def captureRowOk (prog : Value → Option (List Value)) (i : Int)
    (include_original : Bool) (r : PySeq) : Option PySeq :=
  (pyGetItem r.elems i).bind fun v =>
    (prog v).map fun g => .tuple (captureOutRow i include_original r ++ g)

/-- The transformed image of one source row in the split loop: the
output prefix extended with the split pieces of the target value. -/
def splitRowOut (sp : Value → List Value) (i : Int) (include_original : Bool)
    (r : PySeq) : Option PySeq :=
  (pyGetItem r.elems i).map fun v =>
    .tuple (captureOutRow i include_original r ++ sp v)

/-- The boolean verdict of a row test, defaulting to false on error (only
used under a hypothesis that the test succeeds). -/
def testOkB (test : PySeq → Except PErr Bool) (r : PySeq) : Bool :=
  match test r with
  | .ok b => b
  | .error _ => false

lemma pyRemove_isSome_of_mem {l : List Value} {v : Value} (h : v ∈ l) :
    (pyRemove l v).isSome := by
  induction l with
  | nil => simp at h
  | cons x xs ih =>
    by_cases hx : x = v
    · simp [pyRemove, hx]
    · rcases List.mem_cons.mp h with h | h
      · exact absurd h.symm hx
      · simpa [pyRemove, hx] using ih h

lemma captureRows_append_ok (prog : Value → Option (List Value)) (pat : String)
    (i : Int) (inc : Bool) (fill : Option (List Value)) (pre rest : List PySeq)
    (h : ∀ r ∈ pre, (captureRowOk prog i inc r).isSome) :
    captureRows prog pat i inc fill (pre ++ rest) =
      (pre.filterMap (captureRowOk prog i inc) ++
        (captureRows prog pat i inc fill rest).1,
       (captureRows prog pat i inc fill rest).2) := by
  induction pre with
  | nil => simp
  | cons r pre ih =>
    have hr := h r (by simp)
    rw [captureRowOk] at hr
    rcases hv : pyGetItem r.elems i with _ | v
    · rw [hv] at hr; simp at hr
    · rw [hv, Option.some_bind] at hr
      rcases hg : prog v with _ | g
      · rw [hg] at hr; simp at hr
      · have htail := ih (fun r hm => h r (by simp [hm]))
        simp [captureRows, hv, hg, htail, captureRowOk]

lemma splitRows_eq (sp : Value → List Value) (i : Int) (inc : Bool)
    (rows : List PySeq) (h : ∀ r ∈ rows, (pyGetItem r.elems i).isSome) :
    splitRows sp i inc rows = (rows.filterMap (splitRowOut sp i inc), none) := by
  induction rows with
  | nil => simp [splitRows]
  | cons r rest ih =>
    have hr := h r (by simp)
    rcases hv : pyGetItem r.elems i with _ | v
    · rw [hv] at hr; simp at hr
    · have htail := ih (fun r hm => h r (by simp [hm]))
      simp [splitRows, hv, htail, splitRowOut]

lemma searchLoop_eq (test : PySeq → Except PErr Bool) (c : Bool)
    (rows : List PySeq) (h : ∀ r ∈ rows, ∃ b, test r = .ok b) :
    searchLoop test c rows =
      ((rows.filter (fun r => testOkB test r != c)).map (fun r => .tuple r.elems),
       none) := by
  induction rows with
  | nil => simp [searchLoop]
  | cons r rest ih =>
    obtain ⟨b, hb⟩ := h r (by simp)
    have htail := ih (fun r hm => h r (by simp [hm]))
    by_cases hbc : b != c
    · simp [searchLoop, hb, hbc, htail, testOkB]
    · simp [searchLoop, hb, hbc, htail, testOkB]

lemma mkTest_factor (m : String → Bool) (fields : List String)
    (scope : FieldScope) (test : PySeq → Except PErr Bool)
    (hmk : mkTest m fields scope = .ok test) :
    ∀ r r' : PySeq, r.elems = r'.elems → test r = test r' := by
  intro r r' he
  unfold mkTest at hmk
  split at hmk
  · simp only [Except.ok.injEq] at hmk; subst hmk; simp [he]
  · split at hmk
    · simp only [Except.ok.injEq] at hmk; subst hmk; simp [he]
    · simp at hmk
  · split at hmk
    · simp at hmk
    · simp at hmk
    · simp only [Except.ok.injEq] at hmk; subst hmk; simp [he]
    · simp only [Except.ok.injEq] at hmk; subst hmk; simp [he]

lemma captureRows_tuples (prog : Value → Option (List Value)) (pat : String)
    (i : Int) (inc : Bool) (fill : Option (List Value)) (rows : List PySeq) :
    ∀ y ∈ (captureRows prog pat i inc fill rows).1, y.isTuple = true := by
  induction rows with
  | nil => simp [captureRows]
  | cons r rest ih =>
    intro y hy
    rcases hv : pyGetItem r.elems i with _ | v
    · simp [captureRows, hv] at hy
    · rcases hg : prog v with _ | g
      · rcases hf : fill with _ | f
        · subst hf; simp [captureRows, hv, hg] at hy
        · subst hf
          simp only [captureRows, hv, hg] at hy
          rcases List.mem_cons.mp hy with h | h
          · rw [h]; rfl
          · exact ih y h
      · simp only [captureRows, hv, hg] at hy
        rcases List.mem_cons.mp hy with h | h
        · rw [h]; rfl
        · exact ih y h

lemma splitRows_tuples (sp : Value → List Value) (i : Int) (inc : Bool)
    (rows : List PySeq) :
    ∀ y ∈ (splitRows sp i inc rows).1, y.isTuple = true := by
  induction rows with
  | nil => simp [splitRows]
  | cons r rest ih =>
    intro y hy
    rcases hv : pyGetItem r.elems i with _ | v
    · simp [splitRows, hv] at hy
    · simp only [splitRows, hv] at hy
      rcases List.mem_cons.mp hy with h | h
      · rw [h]; rfl
      · exact ih y h

lemma searchLoop_tuples (test : PySeq → Except PErr Bool) (c : Bool)
    (rows : List PySeq) :
    ∀ y ∈ (searchLoop test c rows).1, y.isTuple = true := by
  induction rows with
  | nil => simp [searchLoop]
  | cons r rest ih =>
    intro y hy
    rcases hb : test r with e | b
    · simp [searchLoop, hb] at hy
    · by_cases hbc : (b != c) = true
      · simp only [searchLoop, hb, if_pos hbc] at hy
        rcases List.mem_cons.mp hy with h | h
        · rw [h]; rfl
        · exact ih y h
      · simp only [searchLoop, hb, if_neg hbc] at hy
        exact ih y hy

/-- The table `[['id','variable','value'],['1','A1','12']]` from the
specification's capture example. -/
def exampleTable1 : List PySeq :=
  [.list [.str "id", .str "variable", .str "value"],
   .list [.str "1", .str "A1", .str "12"]]

/-- C1: the capture stage on `exampleTable1` with pattern `(\w)(\d+)` on
field `variable`, new fields `['treat','time']`, original dropped and no
fill, yields exactly the header `['id','value','treat','time']` followed
by the single row `['1','12','A','1']`; and in general every source row
whose target value matches is emitted as the output-row prefix extended
with the match's capture groups in group order (the groups of the
pattern's first match, search semantics, as delivered by the compiled
pattern `prog`). -/
theorem capture_example_and_group_append :
    itercapture wprog "(\\w)(\\d+)" exampleTable1 (.str "variable")
        [.str "treat", .str "time"] false none =
      ⟨[.tuple [.str "id", .str "value", .str "treat", .str "time"],
        .tuple [.str "1", .str "12", .str "A", .str "1"]], none⟩ ∧
    ∀ (prog : Value → Option (List Value)) (pat : String) (i : Int)
      (inc : Bool) (fill : Option (List Value)) (row : PySeq)
      (rest : List PySeq) (value : Value) (groups : List Value),
      pyGetItem row.elems i = some value → prog value = some groups →
      captureRows prog pat i inc fill (row :: rest) =
        (.tuple (captureOutRow i inc row ++ groups) ::
            (captureRows prog pat i inc fill rest).1,
         (captureRows prog pat i inc fill rest).2) := by
  constructor
  · decide
  · intro prog pat i inc fill row rest value groups hv hg
    simp [captureRows, hv, hg]

/-- Witness for C1's general clause: the row `['1','A1','12']` with field
index 1 and the `(\w)(\d+)` engine. -/
theorem capture_example_and_group_append_witness :
    captureRows wprog "(\\w)(\\d+)" 1 false none
        [.list [.str "1", .str "A1", .str "12"]] =
      ([.tuple [.str "1", .str "12", .str "A", .str "1"]], none) := by
  have h := capture_example_and_group_append.2 wprog "(\\w)(\\d+)" 1 false none
    (.list [.str "1", .str "A1", .str "12"]) [] (.str "A1")
    [.str "A", .str "1"] (by decide) (by decide)
  exact h.trans (by decide)

/-- C2 counterexample: on the capture stage with the negative integer
selector `-1` (and the original field retained), the traversal raises no
error at all and yields the header plus a data row — the integer check
`field < len(flds)` has no lower bound, so negative selectors are
accepted and index from the end. -/
theorem capture_negative_index_no_error :
    (itercapture wprog "(\\w)(\\d+)" exampleTable1 (.int (-1)) [] true
        none).err = none ∧
    (itercapture wprog "(\\w)(\\d+)" exampleTable1 (.int (-1)) [] true
        none).yielded =
      [.tuple [.str "id", .str "variable", .str "value"],
       .tuple [.str "1", .str "A1", .str "12", .str "1", .str "2"]] := by
  constructor
  · decide
  · decide

/-- C2 (amended): for the capture and split stages, a selector that is
not a header element and is either a non-integer or an integer at least
the header length makes the traversal raise the generic field-invalid
error (which does not carry the selector) before any element is yielded;
integer selectors below the header length — including negative ones —
are accepted. -/
theorem capture_split_bad_selector_error
    (prog : Value → Option (List Value)) (sp : Value → List Value)
    (pat : String) (flds : PySeq) (rows : List PySeq) (field : Value)
    (nf : List Value) (inc : Bool) (fill : Option (List Value))
    (hmem : field ∉ flds.elems)
    (hbad : (∃ s, field = .str s) ∨
      (∃ n, field = .int n ∧ (flds.elems.length : Int) ≤ n)) :
    itercapture prog pat (flds :: rows) field nf inc fill =
      ⟨[], some .fieldInvalid⟩ ∧
    itersplit sp (flds :: rows) field nf inc = ⟨[], some .fieldInvalid⟩ := by
  rcases hbad with ⟨s, rfl⟩ | ⟨n, rfl, hn⟩
  · constructor
    · simp [itercapture, resolveField, hmem]
    · simp [itersplit, hmem]
  · have hlt : ¬(n < (flds.elems.length : Int)) := not_lt.mpr hn
    constructor
    · simp [itercapture, resolveField, hmem, hlt]
    · simp [itersplit, hmem, hlt]

/-- Witness for C2's amended theorem: the unknown name `nope` on a
one-field header. -/
theorem capture_split_bad_selector_error_witness :
    itercapture wprog "p" [.list [.str "id"]] (.str "nope") [] false none =
      ⟨[], some .fieldInvalid⟩ ∧
    itersplit (dSplit 0) [.list [.str "id"]] (.str "nope") [] false =
      ⟨[], some .fieldInvalid⟩ :=
  capture_split_bad_selector_error wprog (dSplit 0) "p" (.list [.str "id"])
    [] (.str "nope") [] false none (by decide) (Or.inl ⟨"nope", rfl⟩)

/-- C3: in the capture row loop, when the target value of a row does not
match: with a fill sequence configured the output row is the prefix
extended with the fill verbatim and the traversal continues on the
remaining rows; with no fill, a transform error carrying the offending
value and the pattern is raised there, the traversal terminates, and the
rows yielded before that point are exactly the transformed images of the
earlier (matching) source rows. -/
theorem capture_fill_and_transform_error
    (prog : Value → Option (List Value)) (pat : String) (i : Int)
    (inc : Bool) (pre post : List PySeq) (row : PySeq) (value : Value)
    (hpre : ∀ r ∈ pre, (captureRowOk prog i inc r).isSome)
    (hv : pyGetItem row.elems i = some value)
    (hnm : prog value = none) :
    captureRows prog pat i inc none (pre ++ row :: post) =
      (pre.filterMap (captureRowOk prog i inc),
       some (.transformError value pat)) ∧
    ∀ fillseq : List Value,
      captureRows prog pat i inc (some fillseq) (pre ++ row :: post) =
        (pre.filterMap (captureRowOk prog i inc) ++
            .tuple (captureOutRow i inc row ++ fillseq) ::
              (captureRows prog pat i inc (some fillseq) post).1,
         (captureRows prog pat i inc (some fillseq) post).2) := by
  constructor
  · rw [captureRows_append_ok prog pat i inc none pre (row :: post) hpre]
    simp [captureRows, hv, hnm]
  · intro fillseq
    rw [captureRows_append_ok prog pat i inc (some fillseq) pre (row :: post)
      hpre]
    simp [captureRows, hv, hnm]

/-- Witness for C3: one matching row `['A1']` before the non-matching
row `['!!']`, with field index 0 and the `(\w)(\d+)` engine, both with a
fill `['x','y']` and without. -/
theorem capture_fill_and_transform_error_witness :
    captureRows wprog "(\\w)(\\d+)" 0 false none
        [.list [.str "A1"], .list [.str "!!"], .list [.str "B2"]] =
      ([.tuple [.str "A", .str "1"]],
       some (.transformError (.str "!!") "(\\w)(\\d+)")) ∧
    captureRows wprog "(\\w)(\\d+)" 0 false (some [.str "x", .str "y"])
        [.list [.str "A1"], .list [.str "!!"], .list [.str "B2"]] =
      ([.tuple [.str "A", .str "1"], .tuple [.str "x", .str "y"],
        .tuple [.str "B", .str "2"]], none) := by
  have h := capture_fill_and_transform_error wprog "(\\w)(\\d+)" 0 false
    [.list [.str "A1"]] [.list [.str "B2"]] (.list [.str "!!"]) (.str "!!")
    (by decide) (by decide) (by decide)
  exact ⟨h.1.trans (by decide), (h.2 [.str "x", .str "y"]).trans (by decide)⟩

/-- The table `[['id','variable','value'],['1','parad1','12']]` from the
specification's split example. -/
def exampleTableSplit : List PySeq :=
  [.list [.str "id", .str "variable", .str "value"],
   .list [.str "1", .str "parad1", .str "12"]]

/-- C5: the split stage on `exampleTableSplit` with pattern `d` on field
`variable` (new fields `['variable','day']`, original dropped) yields
header `['id','value','variable','day']` and row `['1','12','para','1']`;
pattern `d` on `'parad1'` with `maxsplit = 0` gives pieces
`['para','1']`, a non-matching pattern gives the single original value,
`maxsplit` bounds the number of cuts; and in general each output row is
the prefix extended with the split pieces of the target value, with no
failure path in the row loop. -/
theorem split_pieces_no_failure :
    itersplit (dSplit 0) exampleTableSplit (.str "variable")
        [.str "variable", .str "day"] false =
      ⟨[.tuple [.str "id", .str "value", .str "variable", .str "day"],
        .tuple [.str "1", .str "12", .str "para", .str "1"]], none⟩ ∧
    dSplit 0 (.str "parad1") = [.str "para", .str "1"] ∧
    dSplit 0 (.str "xyz") = [.str "xyz"] ∧
    dSplit 1 (.str "dadbdc") = [.str "", .str "adbdc"] ∧
    ∀ (sp : Value → List Value) (i : Int) (inc : Bool) (rows : List PySeq),
      (∀ r ∈ rows, (pyGetItem r.elems i).isSome) →
      splitRows sp i inc rows =
        (rows.filterMap (splitRowOut sp i inc), none) := by
  refine ⟨by decide, by decide, by decide, by decide, ?_⟩
  exact splitRows_eq

/-- Witness for C5's general clause: the split example's data row with
the `d`-split engine at field index 1. -/
theorem split_pieces_no_failure_witness :
    splitRows (dSplit 0) 1 false [.list [.str "1", .str "parad1", .str "12"]] =
      ([.tuple [.str "1", .str "12", .str "para", .str "1"]], none) := by
  have h := split_pieces_no_failure.2.2.2.2 (dSplit 0) 1 false
    [.list [.str "1", .str "parad1", .str "12"]] (by decide)
  exact h.trans (by decide)

/-- C6 counterexample: with the valid in-range integer selector `1` and
the original field dropped, the capture traversal on `exampleTable1`
yields no header at all — `out_flds.remove(field)` looks for the integer
`1` among the (string) header names and raises `ValueError`, instead of
removing the field at index 1. -/
theorem capture_int_selector_header_error :
    itercapture wprog "(\\w)(\\d+)" exampleTable1 (.int 1)
        [.str "treat", .str "time"] false none =
      ⟨[], some (.valueNotInList (.int 1))⟩ := by
  decide

/-- C6 (amended): when the selector is itself a header element (in
particular any present field name), the first yielded item of a capture
traversal is the source header with the first occurrence of the selector
removed (kept whole when the original is retained) extended with the new
field names in order, and this first item is computed from the header
and static configuration only — it is identical for any two row lists
under the same header. -/
theorem capture_header_from_config
    (prog : Value → Option (List Value)) (pat : String) (hdr : PySeq)
    (rows rows' : List PySeq) (f : Value) (nf : List Value) (inc : Bool)
    (fill : Option (List Value)) (hf : f ∈ hdr.elems) :
    (∃ base,
      (if inc then some hdr.elems else pyRemove hdr.elems f) = some base ∧
      (itercapture prog pat (hdr :: rows) f nf inc fill).yielded.head? =
        some (.tuple (base ++ nf))) ∧
    (itercapture prog pat (hdr :: rows) f nf inc fill).yielded.head? =
      (itercapture prog pat (hdr :: rows') f nf inc fill).yielded.head? := by
  have hres : resolveField hdr.elems f = .ok (pyIndexOf hdr.elems f) := by
    simp [resolveField, hf]
  have hhead : ∀ rs : List PySeq,
      ∃ base,
        (if inc then some hdr.elems else pyRemove hdr.elems f) = some base ∧
        (itercapture prog pat (hdr :: rs) f nf inc fill).yielded.head? =
          some (.tuple (base ++ nf)) := by
    intro rs
    cases inc with
    | true =>
      refine ⟨hdr.elems, by simp, ?_⟩
      have hhdr : captureHeaderE hdr.elems f nf true = .ok (hdr.elems ++ nf) :=
        by simp only [captureHeaderE]; cases nf <;> simp [Except.map]
      simp [itercapture, hres, hhdr]
    | false =>
      obtain ⟨base, hb⟩ :=
        Option.isSome_iff_exists.mp (pyRemove_isSome_of_mem hf)
      refine ⟨base, by simp [hb], ?_⟩
      have hhdr : captureHeaderE hdr.elems f nf false = .ok (base ++ nf) := by
        simp only [captureHeaderE, hb]; cases nf <;> simp [Except.map]
      simp [itercapture, hres, hhdr]
  refine ⟨hhead rows, ?_⟩
  obtain ⟨b1, hb1, he1⟩ := hhead rows
  obtain ⟨b2, hb2, he2⟩ := hhead rows'
  rw [he1, he2, Option.some.inj (hb1.symm.trans hb2)]

/-- Witness for C6's amended theorem: field name `variable` on
`exampleTable1`, once with an empty row list as the second traversal's
source tail. -/
theorem capture_header_from_config_witness :
    (∃ base,
      (if false then some (PySeq.list [Value.str "id", .str "variable",
          .str "value"]).elems
        else pyRemove (PySeq.list [Value.str "id", .str "variable",
          .str "value"]).elems (.str "variable")) = some base ∧
      (itercapture wprog "(\\w)(\\d+)" exampleTable1 (.str "variable")
          [.str "treat", .str "time"] false none).yielded.head? =
        some (.tuple (base ++ [.str "treat", .str "time"]))) ∧
    (itercapture wprog "(\\w)(\\d+)" exampleTable1 (.str "variable")
        [.str "treat", .str "time"] false none).yielded.head? =
      (itercapture wprog "(\\w)(\\d+)"
          [.list [.str "id", .str "variable", .str "value"]] (.str "variable")
          [.str "treat", .str "time"] false none).yielded.head? :=
  capture_header_from_config wprog "(\\w)(\\d+)"
    (.list [.str "id", .str "variable", .str "value"])
    [.list [.str "1", .str "A1", .str "12"]] [] (.str "variable")
    [.str "treat", .str "time"] false none (by decide)

/-- C7 counterexample: on a source whose header contains the non-string
field name `42`, the search traversal yields the header
`('foo', '42')` — the str-coerced names — which differs from the source
header `('foo', 42)`, so the yielded header is not the source header
unchanged. -/
theorem search_header_coerced_counterexample :
    (itersearch (fun _ => true)
        [.list [.str "foo", .int 42], .list [.str "a", .int 1]]
        .whole false).yielded.head? =
      some (.tuple [.str "foo", .str "42"]) ∧
    ((PySeq.tuple [.str "foo", .str "42"]) ≠
      .tuple [.str "foo", .int 42]) := by
  constructor
  · decide
  · decide

/-- C7 (amended): for every search traversal (with or without
complement) the yielded header is the source header with each field name
coerced to its string form — hence unchanged whenever all names are
strings — and, when the scope resolves and every row test succeeds,
every yielded data row is the tuple of some source row's values
unchanged: the stage filters rows and never reshapes them. -/
theorem search_filters_rows_unchanged (m : String → Bool) (hdr : PySeq)
    (rows : List PySeq) (field : FieldScope) (c : Bool) :
    (itersearch m (hdr :: rows) field c).yielded.head? =
      some (.tuple (hdr.elems.map (fun v => .str v.pystr))) ∧
    ∀ test : PySeq → Except PErr Bool,
      mkTest m (hdr.elems.map Value.pystr) field = .ok test →
      (∀ r ∈ rows, ∃ b, test r = .ok b) →
      ∀ y ∈ (itersearch m (hdr :: rows) field c).yielded.tail,
        ∃ r ∈ rows, y = .tuple r.elems := by
  constructor
  · rcases hmk : mkTest m (hdr.elems.map Value.pystr) field with e | test <;>
      · simp only [itersearch, hmk]
        simp [List.map_map, Function.comp]
  · intro test hmk hok y hy
    simp only [itersearch, hmk] at hy
    rw [searchLoop_eq test c rows hok] at hy
    simp only [List.tail_cons] at hy
    obtain ⟨r, hr, hry⟩ := List.mem_map.mp hy
    exact ⟨r, List.mem_of_mem_filter hr, hry.symm⟩

/-- Witness for C7's amended theorem: the whole-row scope on the search
example table, checking the first yielded data row. -/
theorem search_filters_rows_unchanged_witness :
    (itersearch dotgdot
        [.list [.str "foo", .str "bar", .str "baz"],
         .list [.str "orange", .int 12, .str "oranges are nice fruit"]]
        .whole false).yielded.head? =
      some (.tuple [.str "foo", .str "bar", .str "baz"]) ∧
    ∃ r ∈ [PySeq.list [Value.str "orange", .int 12,
        .str "oranges are nice fruit"]],
      (PySeq.tuple [Value.str "orange", .int 12,
        .str "oranges are nice fruit"]) = .tuple r.elems := by
  have h := search_filters_rows_unchanged dotgdot
    (.list [.str "foo", .str "bar", .str "baz"])
    [.list [.str "orange", .int 12, .str "oranges are nice fruit"]]
    .whole false
  refine ⟨by exact h.1.trans (by decide), ?_⟩
  refine h.2 (fun r => Except.ok (r.elems.any (fun v => dotgdot v.pystr)))
    rfl (fun r _ => ⟨r.elems.any (fun v => dotgdot v.pystr), rfl⟩)
    (.tuple [.str "orange", .int 12, .str "oranges are nice fruit"]) (by decide)

/-- C8 counterexample: with the singleton field subset `['foo']` and a
pattern matching the selected value `'ab'` in full, the search traversal
does not yield that row — `operator.itemgetter` on a single index
returns the bare value, so the generator iterates the string's
characters and tests the pattern against each character instead of
against the value. -/
theorem search_singleton_subset_counterexample :
    litSearch "ab" ((Value.str "ab").pystr) = true ∧
    (itersearch (litSearch "ab") [.list [.str "foo"], .list [.str "ab"]]
        (.subset [.str "foo"]) false).yielded =
      [.tuple [.str "foo"]] := by
  constructor
  · decide
  · decide

/-- C8 (amended): a search row test is, for the whole-row scope, whether
the pattern matches the string form of any value in the row; for a
single named field, whether it matches the string form of that field's
value; for a field subset of at least two resolved indices, whether it
matches the string form of any selected value; but for a singleton
subset the selected value itself is iterated, so for a string value the
pattern is tested against each one-character substring.  A row is
yielded exactly when its test verdict differs from the complement
flag. -/
theorem search_predicate_semantics :
    (∀ (m : String → Bool) (fields : List String)
       (test : PySeq → Except PErr Bool),
       mkTest m fields .whole = .ok test →
       ∀ r, test r = .ok (r.elems.any (fun v => m v.pystr))) ∧
    (∀ (m : String → Bool) (fields : List String) (s : String) (i : Nat)
       (test : PySeq → Except PErr Bool),
       fields.findIdx? (fun g => g == s) = some i →
       mkTest m fields (.single s) = .ok test →
       ∀ r v, r.elems[i]? = some v → test r = .ok (m v.pystr)) ∧
    (∀ (m : String → Bool) (fields : List String) (sel : List Value)
       (i j : Nat) (rest : List Nat) (test : PySeq → Except PErr Bool),
       asindices fields sel = .ok (i :: j :: rest) →
       mkTest m fields (.subset sel) = .ok test →
       ∀ r vals, getIndexed r.elems (i :: j :: rest) = some vals →
         test r = .ok (vals.any (fun v => m v.pystr))) ∧
    (∀ (m : String → Bool) (fields : List String) (sel : List Value)
       (i : Nat) (test : PySeq → Except PErr Bool),
       asindices fields sel = .ok [i] →
       mkTest m fields (.subset sel) = .ok test →
       ∀ r s, r.elems[i]? = some (.str s) →
         test r = .ok (s.toList.any (fun ch => m (String.mk [ch])))) ∧
    (∀ (test : PySeq → Except PErr Bool) (c : Bool) (rows : List PySeq),
       (∀ r ∈ rows, ∃ b, test r = .ok b) →
       searchLoop test c rows =
         ((rows.filter (fun r => testOkB test r != c)).map
             (fun r => .tuple r.elems),
          none)) := by
  refine ⟨?_, ?_, ?_, ?_, searchLoop_eq⟩
  · intro m fields test hmk r
    simp only [mkTest, Except.ok.injEq] at hmk
    subst hmk
    rfl
  · intro m fields s i test hidx hmk r v hv
    simp only [mkTest, hidx, Except.ok.injEq] at hmk
    subst hmk
    simp [hv]
  · intro m fields sel i j rest test hind hmk r vals hvals
    simp only [mkTest, hind, Except.ok.injEq] at hmk
    subst hmk
    simp [hvals]
  · intro m fields sel i test hind hmk r s hv
    simp only [mkTest, hind, Except.ok.injEq] at hmk
    subst hmk
    simp [hv, pyIterAny]

/-- Witness for C8's amended theorem: the two-field subset
`['foo','baz']` over the search example's first data row tests true. -/
theorem search_predicate_semantics_witness :
    (fun (r : PySeq) =>
        match getIndexed r.elems [0, 2] with
        | some vals => Except.ok (vals.any (fun v => dotgdot v.pystr))
        | none => (Except.error PErr.indexError : Except PErr Bool))
      (.list [.str "orange", .int 12, .str "oranges are nice fruit"]) =
      .ok true := by
  have h := search_predicate_semantics.2.2.1 dotgdot
    ["foo", "bar", "baz"] [.str "foo", .str "baz"] 0 2 []
    (fun r =>
      match getIndexed r.elems [0, 2] with
      | some vals => Except.ok (vals.any (fun v => dotgdot v.pystr))
      | none => Except.error PErr.indexError)
    rfl rfl
    (.list [.str "orange", .int 12, .str "oranges are nice fruit"])
    [.str "orange", .str "oranges are nice fruit"] rfl
  exact h.trans (by rfl)

/-- C4: `searchcomplement` is `search` with the complement flag forced
true, with no logic of its own; and for every traversal whose scope
resolves and whose row tests all succeed, the rows yielded by plain
search are exactly those whose test is true, the rows yielded by the
complement are exactly those whose test is false, their concatenation is
a permutation of the source data rows (each source row exactly once),
and no row object is yielded by both. -/
theorem searchcomplement_partition :
    (∀ (t : List PySeq) (p : String) (f : FieldScope) (fl : Nat),
       searchcomplement t p f fl = search t p f fl true) ∧
    ∀ (m : String → Bool) (hdr : PySeq) (rows : List PySeq)
      (field : FieldScope) (test : PySeq → Except PErr Bool),
      mkTest m (hdr.elems.map Value.pystr) field = .ok test →
      (∀ r ∈ rows, ∃ b, test r = .ok b) →
      (itersearch m (hdr :: rows) field false).yielded.tail =
          (rows.filter (fun r => testOkB test r)).map
            (fun r => .tuple r.elems) ∧
      (itersearch m (hdr :: rows) field true).yielded.tail =
          (rows.filter (fun r => !testOkB test r)).map
            (fun r => .tuple r.elems) ∧
      ((itersearch m (hdr :: rows) field false).yielded.tail ++
          (itersearch m (hdr :: rows) field true).yielded.tail).Perm
        (rows.map (fun r => .tuple r.elems)) ∧
      ∀ y ∈ (itersearch m (hdr :: rows) field false).yielded.tail,
        y ∉ (itersearch m (hdr :: rows) field true).yielded.tail := by
  refine ⟨fun t p f fl => rfl, ?_⟩
  intro m hdr rows field test hmk hok
  have hfF : (fun r => testOkB test r != false) =
      (fun r => testOkB test r) := by
    funext r; cases testOkB test r <;> rfl
  have hfT : (fun r => testOkB test r != true) =
      (fun r => !testOkB test r) := by
    funext r; cases testOkB test r <;> rfl
  have hA : (itersearch m (hdr :: rows) field false).yielded.tail =
      (rows.filter (fun r => testOkB test r)).map
        (fun r => .tuple r.elems) := by
    simp only [itersearch, hmk]
    rw [searchLoop_eq test false rows hok]
    simp only [List.tail_cons, hfF]
  have hB : (itersearch m (hdr :: rows) field true).yielded.tail =
      (rows.filter (fun r => !testOkB test r)).map
        (fun r => .tuple r.elems) := by
    simp only [itersearch, hmk]
    rw [searchLoop_eq test true rows hok]
    simp only [List.tail_cons, hfT]
  refine ⟨hA, hB, ?_, ?_⟩
  · rw [hA, hB, ← List.map_append]
    exact (List.filter_append_perm (fun r => testOkB test r) rows).map
      (fun r => PySeq.tuple r.elems)
  · intro y hy1 hy2
    rw [hA] at hy1
    rw [hB] at hy2
    obtain ⟨r1, hr1, he1⟩ := List.mem_map.mp hy1
    obtain ⟨r2, hr2, he2⟩ := List.mem_map.mp hy2
    have hp1 : testOkB test r1 = true := (List.mem_filter.mp hr1).2
    have hp2 : (!testOkB test r2) = true := (List.mem_filter.mp hr2).2
    have helems : r1.elems = r2.elems :=
      PySeq.tuple.inj (he1.trans he2.symm)
    have htest : test r1 = test r2 :=
      mkTest_factor m (hdr.elems.map Value.pystr) field test hmk r1 r2 helems
    have : testOkB test r1 = testOkB test r2 := by
      simp [testOkB, htest]
    rw [hp1] at this
    rw [← this] at hp2
    simp at hp2

/-- Witness for C4: the whole-row scope with pattern `.g.` on the search
example table — search yields both data rows, the complement yields
none, and together they partition the two source rows. -/
theorem searchcomplement_partition_witness :
    (itersearch dotgdot
        [.list [.str "foo", .str "bar", .str "baz"],
         .list [.str "orange", .int 12, .str "oranges are nice fruit"],
         .list [.str "mango", .int 42, .str "I like them"]]
        .whole false).yielded.tail =
      [.tuple [.str "orange", .int 12, .str "oranges are nice fruit"],
       .tuple [.str "mango", .int 42, .str "I like them"]] ∧
    (itersearch dotgdot
        [.list [.str "foo", .str "bar", .str "baz"],
         .list [.str "orange", .int 12, .str "oranges are nice fruit"],
         .list [.str "mango", .int 42, .str "I like them"]]
        .whole true).yielded.tail = [] := by
  have h := searchcomplement_partition.2 dotgdot
    (.list [.str "foo", .str "bar", .str "baz"])
    [.list [.str "orange", .int 12, .str "oranges are nice fruit"],
     .list [.str "mango", .int 42, .str "I like them"]]
    .whole (fun r => Except.ok (r.elems.any (fun v => dotgdot v.pystr)))
    rfl (fun r _ => ⟨r.elems.any (fun v => dotgdot v.pystr), rfl⟩)
  exact ⟨h.1.trans (by decide), h.2.1.trans (by decide)⟩

/-- C9: a stage view is an immutable bundle of source reference and
configuration, and a traversal is a pure function of that bundle: any
two traversals of the same view instance produce the same trace, and
each traversal is exactly a fresh run of the stage's iterator on the
stored source — there is no cache field for it to read. -/
theorem views_reiterable_deterministic
    (compileC : String → Nat → (Value → Option (List Value)))
    (compileS : String → Nat → (Value → Int → List Value))
    (compileR : String → Nat → (String → Bool))
    (vc : CaptureView) (vs : SplitView) (vr : SearchView) :
    (vc.iter compileC = vc.iter compileC ∧
      vc.iter compileC =
        itercapture (compileC vc.pattern vc.flags) vc.pattern vc.source
          vc.field vc.newfields vc.include_original vc.fill) ∧
    (vs.iter compileS = vs.iter compileS ∧
      vs.iter compileS =
        itersplit (fun x => compileS vs.pattern vs.flags x vs.maxsplit)
          vs.source vs.field vs.newfields vs.include_original) ∧
    (vr.iter compileR = vr.iter compileR ∧
      vr.iter compileR =
        itersearch (compileR vr.pattern vr.flags) vr.table vr.field
          vr.complement) :=
  ⟨⟨rfl, rfl⟩, ⟨rfl, rfl⟩, ⟨rfl, rfl⟩⟩

/-- C10: every element yielded by a capture, split or search traversal —
header and data rows alike — is a tuple, whatever sequence kinds the
source table used. -/
theorem yields_are_tuples (prog : Value → Option (List Value)) (pat : String)
    (src : List PySeq) (field : Value) (nf : List Value) (inc : Bool)
    (fill : Option (List Value)) (sp : Value → List Value)
    (m : String → Bool) (scope : FieldScope) (c : Bool) :
    (∀ y ∈ (itercapture prog pat src field nf inc fill).yielded,
      y.isTuple = true) ∧
    (∀ y ∈ (itersplit sp src field nf inc).yielded, y.isTuple = true) ∧
    (∀ y ∈ (itersearch m src scope c).yielded, y.isTuple = true) := by
  have hbody : ∀ (flds : PySeq) (rows : List PySeq) (f2 : Value) (ix : Int),
      ∀ y ∈ (itersplitBody sp flds rows nf inc f2 ix).yielded,
        y.isTuple = true := by
    intro flds rows f2 ix y hy
    rcases hh : captureHeaderE flds.elems f2 nf inc with e | outFlds
    · simp [itersplitBody, hh] at hy
    · simp only [itersplitBody, hh] at hy
      rcases List.mem_cons.mp hy with h | h
      · rw [h]; rfl
      · exact splitRows_tuples sp ix inc rows y h
  refine ⟨?_, ?_, ?_⟩
  · intro y hy
    cases src with
    | nil => simp [itercapture] at hy
    | cons flds rows =>
      rcases hres : resolveField flds.elems field with e | idx
      · simp [itercapture, hres] at hy
      · rcases hh : captureHeaderE flds.elems field nf inc with e | outFlds
        · simp [itercapture, hres, hh] at hy
        · simp only [itercapture, hres, hh] at hy
          rcases List.mem_cons.mp hy with h | h
          · rw [h]; rfl
          · exact captureRows_tuples prog pat idx inc fill rows y h
  · intro y hy
    cases src with
    | nil => simp [itersplit] at hy
    | cons flds rows =>
      by_cases hmem : field ∈ flds.elems
      · simp only [itersplit, if_pos hmem] at hy
        exact hbody flds rows field (pyIndexOf flds.elems field) y hy
      · cases field with
        | str s => simp [itersplit, hmem] at hy
        | int n =>
          by_cases hlt : n < (flds.elems.length : Int)
          · rcases hg : pyGetItem flds.elems n with _ | f2
            · simp [itersplit, hmem, hlt, hg] at hy
            · simp only [itersplit, if_neg hmem, if_pos hlt, hg] at hy
              exact hbody flds rows f2 n y hy
          · simp [itersplit, hmem, hlt] at hy
  · intro y hy
    cases src with
    | nil => simp [itersearch] at hy
    | cons hdr rows =>
      rcases hmk : mkTest m (hdr.elems.map Value.pystr) scope with e | test
      · simp only [itersearch, hmk] at hy
        rcases List.mem_singleton.mp hy with h
        rw [h]; rfl
      · simp only [itersearch, hmk] at hy
        rcases List.mem_cons.mp hy with h | h
        · rw [h]; rfl
        · exact searchLoop_tuples test c rows y h

/-- Witness for C10: the header yielded by the capture example is a
tuple. -/
theorem yields_are_tuples_witness :
    PySeq.isTuple
      (.tuple [.str "id", .str "value", .str "treat", .str "time"]) = true :=
  (yields_are_tuples wprog "(\\w)(\\d+)" exampleTable1 (.str "variable")
    [.str "treat", .str "time"] false none (dSplit 0) dotgdot .whole false).1
    (.tuple [.str "id", .str "value", .str "treat", .str "time"]) (by decide)

end Petl
